import Mathlib

/-
Verification of the quick-stickers image router (`src/backend/routers/image.ts`).

The router closes over four pieces of mutable module state: the `jobQueue`
array of pending jobs, the `completedJobs` record, the `cancelledJobs` array
and the `credits` counter.  We embed that state as `ServerState`, adding two
scheduler fields (`armed`, `inflight`) that model the Node timer created by
`setTimeout` for each job: a timer is *armed* from `setTimeout` until it
fires, *in flight* while its async callback body runs, and gone afterwards.
`clearTimeout` only removes an armed timer.  Each HTTP handler becomes a pure
function from a state and its request inputs to a response and a new state;
the nondeterministic environment (fresh job ids, timer firings, outcomes of
the external Gemini / background-removal calls) is captured by an `Event`
step function, and `Reachable` is the set of states produced by event traces
from the initial state.
-/

namespace QuickStickers

/-- One representation (`fullsize` or `thumbnail`) inside the `ImageResponse`
interface of `src/backend/routers/image.ts`: fixed dimensions plus a data URL. -/
structure ImageRep where
  width : Nat
  height : Nat
  url : String
deriving DecidableEq

/-- The `ImageResponse` interface of `src/backend/routers/image.ts`. -/
structure ImageResponse where
  fullsize : ImageRep
  thumbnail : ImageRep
  label : String
deriving DecidableEq

/-- An entry of the `jobQueue` array (`{ jobId, prompt, timeoutId }`).  The
`timeoutId` handle is represented by the job id in the scheduler fields of
`ServerState`, since the router creates exactly one timer per job. -/
structure PendingJob where
  jobId : String
  prompt : String
deriving DecidableEq

/-- The module-level mutable state captured by `createImageRouter`:
`jobQueue`, `completedJobs` (a record keyed by job id, embedded as an
association list whose lookup finds the first matching key), `cancelledJobs`
(an array of `{ jobId }` markers, embedded as the list of ids) and `credits`.
`armed` and `inflight` model the Node timers (see the header comment). -/
structure ServerState where
  jobQueue : List PendingJob
  completedJobs : List (String × List ImageResponse)
  cancelledJobs : List String
  credits : Int
  armed : List String
  inflight : List String
deriving DecidableEq

/-- `let credits = 10` : the initial balance, with all collections empty. -/
def initialState : ServerState :=
  { jobQueue := [], completedJobs := [], cancelledJobs := [],
    credits := 10, armed := [], inflight := [] }

/-- `const CREDITS_IN_BUNDLE = 10`. -/
def CREDITS_IN_BUNDLE : Int := 10

/-- `GET /api/credits`: returns the current balance, no state change. -/
def getCredits (s : ServerState) : Int × ServerState :=
  (s.credits, s)

/-- `POST /api/purchase-credits`: `credits += CREDITS_IN_BUNDLE`, then the new
balance is returned. -/
def purchaseCredits (s : ServerState) : Int × ServerState :=
  (s.credits + CREDITS_IN_BUNDLE, { s with credits := s.credits + CREDITS_IN_BUNDLE })

/-- Response of `GET /api/queue-image-generation`: 403 when out of credits,
400 when the prompt is missing, otherwise 200 with the fresh job id. -/
inductive QueueResult where
  | noCredits
  | missingPrompt
  | queued (jobId : String)
deriving DecidableEq

/-- `GET /api/queue-image-generation`.  `prompt` is the query parameter
(`none` for absent; the falsiness test `!prompt` also catches `""`), `newId`
is the id produced by `generateJobId()`.  On success the job is pushed onto
`jobQueue` and its 5-second timer is armed. -/
def queueImageGeneration (s : ServerState) (prompt : Option String) (newId : String) :
    QueueResult × ServerState :=
  if s.credits ≤ 0 then
    (.noCredits, s)
  else
    match prompt with
    | none => (.missingPrompt, s)
    | some p =>
      if p = "" then (.missingPrompt, s)
      else
        (.queued newId,
          { s with jobQueue := s.jobQueue ++ [⟨newId, p⟩], armed := newId :: s.armed })

/-- `completedJobs[jobId]`: lookup in the completed record. -/
def lookupCompleted (s : ServerState) (id : String) : Option (List ImageResponse) :=
  (s.completedJobs.find? (fun e => e.1 == id)).map (fun e => e.2)

/-- Response of `GET /api/job-status`. -/
inductive StatusResult where
  | missingId
  | completed (images : List ImageResponse) (credits : Int)
  | processing
  | cancelled
  | notFound
deriving DecidableEq

/-- `GET /api/job-status`: checks `completedJobs[jobId]`, then a linear scan
of `jobQueue`, then of `cancelledJobs`, else 404.  No state change. -/
def jobStatus (s : ServerState) (jobId : Option String) : StatusResult × ServerState :=
  match jobId with
  | none => (.missingId, s)
  | some id =>
    if id = "" then (.missingId, s)
    else
      match lookupCompleted s id with
      | some images => (.completed images s.credits, s)
      | none =>
        if s.jobQueue.any (fun j => j.jobId == id) then (.processing, s)
        else if s.cancelledJobs.any (fun c => c == id) then (.cancelled, s)
        else (.notFound, s)

/-- Response of `POST /api/job-status/cancel`. -/
inductive CancelResult where
  | missingId
  | success
  | notFound
deriving DecidableEq

/-- `POST /api/job-status/cancel`: `findIndex` over `jobQueue`; when found,
push the id onto `cancelledJobs`, `splice` the entry out of `jobQueue` and
`clearTimeout` its timer (which disarms the timer only if it has not fired
yet — `List.erase` on `armed` is a no-op otherwise, like `clearTimeout`). -/
def cancelJob (s : ServerState) (jobId : Option String) : CancelResult × ServerState :=
  match jobId with
  | none => (.missingId, s)
  | some id =>
    if id = "" then (.missingId, s)
    else
      match s.jobQueue.findIdx? (fun j => j.jobId == id) with
      | some i =>
        (.success,
          { s with
            cancelledJobs := s.cancelledJobs ++ [id],
            jobQueue := s.jobQueue.eraseIdx i,
            armed := s.armed.erase id })
      | none => (.notFound, s)

/-- The joined outcome of the four concurrent `generateGeminiImage` calls in
the `setTimeout` callback: all four succeed, or `Promise.all` rejects. -/
abbrev Batch := ImageResponse × ImageResponse × ImageResponse × ImageResponse

/-- The timer of job `jobId` fires and the callback body starts: from this
point `clearTimeout` can no longer stop the work. -/
def timerStart (s : ServerState) (jobId : String) : ServerState :=
  { s with armed := s.armed.erase jobId, inflight := jobId :: s.inflight }

/-- The `setTimeout` callback finishes.  `outcome = some b` models all four
generation calls succeeding with results `b`; then the callback looks the job
up in `jobQueue` by `findIndex`, and if still present splices it out, stores
the four-element array in `completedJobs` and decrements `credits`.
`outcome = none` models `Promise.all` rejecting: the `catch` only logs. -/
def timerFinish (s : ServerState) (jobId : String) (outcome : Option Batch) : ServerState :=
  let s₀ := { s with inflight := s.inflight.erase jobId }
  match outcome with
  | none => s₀
  | some b =>
    match s₀.jobQueue.findIdx? (fun j => j.jobId == jobId) with
    | some i =>
      { s₀ with
        jobQueue := s₀.jobQueue.eraseIdx i,
        completedJobs := (jobId, [b.1, b.2.1, b.2.2.1, b.2.2.2]) :: s₀.completedJobs,
        credits := s₀.credits - 1 }
    | none => s₀

/-- The job ids of the entries of `jobQueue`. -/
def pendingIds (s : ServerState) : List String :=
  s.jobQueue.map (fun j => j.jobId)

/-- Membership of a job id in the pending collection. -/
def memPending (s : ServerState) (id : String) : Prop :=
  id ∈ pendingIds s

/-- Membership of a job id in the completed collection. -/
def memCompleted (s : ServerState) (id : String) : Prop :=
  (lookupCompleted s id).isSome = true

/-- Membership of a job id in the cancelled collection. -/
def memCancelled (s : ServerState) (id : String) : Prop :=
  id ∈ s.cancelledJobs

instance (s : ServerState) (id : String) : Decidable (memPending s id) :=
  inferInstanceAs (Decidable (id ∈ pendingIds s))

instance (s : ServerState) (id : String) : Decidable (memCompleted s id) :=
  inferInstanceAs (Decidable ((lookupCompleted s id).isSome = true))

instance (s : ServerState) (id : String) : Decidable (memCancelled s id) :=
  inferInstanceAs (Decidable (id ∈ s.cancelledJobs))

/-- `generateJobId()` draws a random alphanumeric string; we model the spec's
"fresh job ID" as an id not present in any of the three collections. -/
def freshId (s : ServerState) (id : String) : Bool :=
  !(s.jobQueue.any (fun j => j.jobId == id)) &&
    !(s.completedJobs.any (fun e => e.1 == id)) &&
      !(s.cancelledJobs.any (fun c => c == id))

/-- One atomic step of the system: an HTTP request hitting a handler, or a
phase of a job's delayed action. -/
inductive Event where
  | purchase
  | credits
  | status (jobId : Option String)
  | cancel (jobId : Option String)
  | queue (prompt : Option String) (newId : String)
  | start (jobId : String)
  | finish (jobId : String) (outcome : Option Batch)

/-- Effect of one event on the state; `none` when the event is not enabled
(a queue request with a non-fresh id, or a timer phase with no such timer). -/
def applyEvent (s : ServerState) : Event → Option ServerState
  | .purchase => some (purchaseCredits s).2
  | .credits => some (getCredits s).2
  | .status j => some (jobStatus s j).2
  | .cancel j => some (cancelJob s j).2
  | .queue p id => if freshId s id then some (queueImageGeneration s p id).2 else none
  | .start id => if s.armed.contains id then some (timerStart s id) else none
  | .finish id oc => if s.inflight.contains id then some (timerFinish s id oc) else none

/-- Run a trace of events from a state. -/
def runEvents (s : ServerState) : List Event → Option ServerState
  | [] => some s
  | e :: es =>
    match applyEvent s e with
    | some s' => runEvents s' es
    | none => none

/-- States reachable from the initial router state by some event trace. -/
def Reachable (s : ServerState) : Prop :=
  ∃ es, runEvents initialState es = some s

/-- The style-constrained instruction built around the user prompt (the
`stickerPrompt` template literal). -/
def stickerPrompt (prompt : String) : String :=
  "Create a fun, colorful, work-safe PNG sticker of: " ++ prompt ++
    ".\n  Only the subject should be visible with white background.\n  Use vector art style, bold outlines, and no shadows.\n  Return only a PNG image."

/-- `part.inlineData` of a Gemini response part: the base64 payload. -/
structure InlineData where
  data : String
deriving DecidableEq

/-- One part of a Gemini candidate's content. -/
structure GeminiPart where
  inlineData : Option InlineData
deriving DecidableEq

/-- `candidate.content`; `parts` is optional (`!candidate.content.parts`). -/
structure GeminiContent where
  parts : Option (List GeminiPart)
deriving DecidableEq

/-- A Gemini candidate with its optional content. -/
structure GeminiCandidate where
  content : Option GeminiContent
deriving DecidableEq

/-- A response of `ai.models.generateContent`; `candidates` is optional
(`!response.candidates`). -/
structure GeminiResponse where
  candidates : Option (List GeminiCandidate)
deriving DecidableEq

/-- A base64 payload rendered as a PNG data URL. -/
def dataUrl (b64 : String) : String :=
  "data:image/png;base64," ++ b64

/-- Body of the per-part branch of `generateGeminiImage`: `bg = some b64`
models `removeBackground` succeeding with `b64` the base64 re-encoding of the
processed blob, `bg = none` models it throwing (the `catch` branch falls back
to the unprocessed `imageData`). -/
def generatePart (prompt : String) (bg : Option String) (imageData : String) : ImageResponse :=
  match bg with
  | some b64 =>
    { fullsize := ⟨1024, 1024, dataUrl b64⟩,
      thumbnail := ⟨512, 512, dataUrl b64⟩,
      label := prompt }
  | none =>
    { fullsize := ⟨1024, 1024, dataUrl imageData⟩,
      thumbnail := ⟨512, 512, dataUrl imageData⟩,
      label := prompt }

/-- The `for (const part of candidate.content.parts)` loop: the first part
with a truthy `inlineData.data` is processed and returned; if no part
qualifies the function throws `"No image generated"`. -/
def generateLoop (prompt : String) (bg : Option String) :
    List GeminiPart → Except String ImageResponse
  | [] => .error "No image generated"
  | part :: rest =>
    match part.inlineData with
    | some d =>
      if d.data = "" then generateLoop prompt bg rest
      else .ok (generatePart prompt bg d.data)
    | none => generateLoop prompt bg rest

/-- `generateGeminiImage`, as a function of the external Gemini response and
the outcome of the (single) background-removal call on the chosen payload. -/
def generateGeminiImage (prompt : String) (response : GeminiResponse) (bg : Option String) :
    Except String ImageResponse :=
  match response.candidates with
  | none => .error "No candidates returned from Gemini API"
  | some [] => .error "No candidates returned from Gemini API"
  | some (candidate :: _) =>
    match candidate.content with
    | none => .error "Invalid candidate structure from Gemini API"
    | some content =>
      match content.parts with
      | none => .error "Invalid candidate structure from Gemini API"
      | some parts => generateLoop prompt bg parts

/-- The payload the loop of `generateGeminiImage` would pick from a response:
the first truthy `inlineData.data` of the first candidate's parts. -/
def firstInlineData : List GeminiPart → Option String
  | [] => none
  | part :: rest =>
    match part.inlineData with
    | some d => if d.data = "" then firstInlineData rest else some d.data
    | none => firstInlineData rest

/-- `firstInlineData` lifted to a whole response. -/
def responseFirstData (response : GeminiResponse) : Option String :=
  match response.candidates with
  | some (candidate :: _) =>
    match candidate.content with
    | some content =>
      match content.parts with
      | some parts => firstInlineData parts
      | none => none
    | none => none
  | _ => none

/-- Mutual exclusion of the three collections, per job id. -/
def Exclusive (s : ServerState) : Prop :=
  ∀ id : String,
    ¬ (memPending s id ∧ memCompleted s id) ∧
      ¬ (memPending s id ∧ memCancelled s id) ∧
        ¬ (memCompleted s id ∧ memCancelled s id)

/-- Inductive invariant: pending ids are distinct, the collections are
mutually exclusive, and the balance plus the number of completed jobs never
drops below the initial 10. -/
def Inv (s : ServerState) : Prop :=
  (pendingIds s).Nodup ∧ Exclusive s ∧ 10 ≤ s.credits + (s.completedJobs.length : Int)

/-- A concrete image result, used as the outcome of generation calls in
concrete traces (the tracker never inspects the images it stores). -/
def dummyImage : ImageResponse :=
  { fullsize := ⟨1024, 1024, "u"⟩, thumbnail := ⟨512, 512, "u"⟩, label := "cat" }

/-- A concrete four-way generation outcome. -/
def dummyBatch : Batch := (dummyImage, dummyImage, dummyImage, dummyImage)

/-- Eleven distinct job ids for the credit-exhaustion trace. -/
def negIds : List String :=
  ["a", "b", "c", "d", "e", "f", "g", "h", "i", "j", "k"]

/-- A trace that queues eleven jobs while the balance is still 10 (queuing
spends nothing, so the `credits ≤ 0` check passes every time) and then lets
all eleven delayed actions fire successfully, each decrementing the balance:
the balance ends at `10 - 11 = -1`. -/
def negTrace : List Event :=
  (negIds.map (fun id => Event.queue (some "cat") id)) ++
    (negIds.map (fun id => Event.start id)) ++
      (negIds.map (fun id => Event.finish id (some dummyBatch)))

/-- The state reached by `negTrace`. -/
def negState : ServerState :=
  (runEvents initialState negTrace).getD initialState

/-- The state after two purchase calls from the initial state. -/
def twoPurchases : ServerState :=
  (runEvents initialState (List.replicate 2 Event.purchase)).getD initialState

/-- A concrete Gemini response whose first candidate carries one inline
image payload. -/
def witnessResponse : GeminiResponse :=
  { candidates := some
      [{ content := some { parts := some [{ inlineData := some { data := "QUJD" } }] } }] }

/-- The image result produced from `witnessResponse` when background removal
succeeds with payload `"WFla"`. -/
def witnessImage : ImageResponse := generatePart "cat" (some "WFla") "QUJD"

end QuickStickers

namespace QuickStickers

theorem eraseIdx_of_findIdx? {α : Type} (p : α → Bool) :
    ∀ (l : List α) (i : Nat), l.findIdx? p = some i → l.eraseIdx i = l.eraseP p := by
  intro l
  induction l with
  | nil => intro i h; simp [List.findIdx?] at h
  | cons a l ih =>
    intro i h
    rw [List.findIdx?_cons] at h
    by_cases hpa : p a
    · rw [if_pos hpa] at h
      cases h
      simp [List.eraseP_cons_of_pos hpa, List.eraseIdx]
    · rw [if_neg hpa, List.findIdx?_succ] at h
      cases hf : l.findIdx? p with
      | none => rw [hf] at h; simp at h
      | some j =>
        rw [hf] at h
        simp at h
        subst h
        simp only [List.eraseIdx, List.eraseP_cons_of_neg hpa]
        rw [ih j hf]

theorem exists_of_findIdx?_eq_some {α : Type} {p : α → Bool} {l : List α} {i : Nat}
    (h : l.findIdx? p = some i) : ∃ a ∈ l, p a = true := by
  by_contra hc
  push_neg at hc
  have : l.findIdx? p = none := List.findIdx?_eq_none_iff.mpr (fun x hx => by
    have := hc x hx
    simpa using this)
  rw [this] at h
  exact Option.noConfusion h

theorem pending_eraseP_spec (q : List PendingJob) (id : String)
    (hn : (q.map (fun j => j.jobId)).Nodup)
    (hmem : ∃ j ∈ q, j.jobId = id) :
    ((q.eraseP (fun j => j.jobId == id)).map (fun j => j.jobId)).Nodup ∧
      id ∉ (q.eraseP (fun j => j.jobId == id)).map (fun j => j.jobId) ∧
        ∀ x ∈ (q.eraseP (fun j => j.jobId == id)).map (fun j => j.jobId),
          x ∈ q.map (fun j => j.jobId) := by
  obtain ⟨j0, hj0, hid⟩ := hmem
  obtain ⟨a, l₁, l₂, hl₁, hpa, hq, hq'⟩ :=
    @List.exists_of_eraseP PendingJob (fun j => j.jobId == id) q j0 hj0 (by simp [hid])
  have hsub : ((q.eraseP (fun j => j.jobId == id)).map (fun j => j.jobId)).Sublist
      (q.map (fun j => j.jobId)) := (List.eraseP_sublist q).map _
  refine ⟨List.Nodup.sublist hsub hn, ?_, fun x hx => hsub.mem hx⟩
  have haid : a.jobId = id := by simpa using hpa
  rw [hq'] at *
  rw [hq] at hn
  simp only [List.map_append, List.map_cons, haid] at hn
  have hmid := List.nodup_middle.mp hn
  rw [List.nodup_cons] at hmid
  simpa [List.map_append] using hmid.1

theorem lookupCompleted_cons (s : ServerState) (k : String) (v : List ImageResponse) (x : String) :
    lookupCompleted { s with completedJobs := (k, v) :: s.completedJobs } x =
      if k = x then some v else lookupCompleted s x := by
  unfold lookupCompleted
  by_cases h : k = x
  · simp [List.find?_cons, h]
  · simp [List.find?_cons, h]

theorem memPending_iff (s : ServerState) (id : String) :
    memPending s id ↔ ∃ j ∈ s.jobQueue, j.jobId = id := by
  simp [memPending, pendingIds]

theorem memCompleted_find?_iff (s : ServerState) (id : String) :
    memCompleted s id ↔ ∃ e ∈ s.completedJobs, e.1 = id := by
  rw [memCompleted, lookupCompleted]
  constructor
  · intro h
    cases hf : s.completedJobs.find? (fun e => e.1 == id) with
    | none => rw [hf] at h; simp at h
    | some e =>
      refine ⟨e, List.mem_of_find?_eq_some hf, ?_⟩
      have := List.find?_some hf
      simpa using this
  · rintro ⟨e, he, hid⟩
    cases hf : s.completedJobs.find? (fun e => e.1 == id) with
    | none =>
      rw [List.find?_eq_none] at hf
      exact absurd (by simpa using hid) (hf e he)
    | some e' => simp [hf]

theorem freshId_iff (s : ServerState) (id : String) :
    freshId s id = true ↔ ¬ memPending s id ∧ ¬ memCompleted s id ∧ ¬ memCancelled s id := by
  rw [memPending_iff, memCompleted_find?_iff]
  simp only [freshId, Bool.and_eq_true, Bool.not_eq_true', List.any_eq_false, memCancelled]
  simp only [beq_iff_eq]
  constructor
  · rintro ⟨⟨h1, h2⟩, h3⟩
    exact ⟨fun ⟨j, hj, hjid⟩ => h1 j hj hjid, fun ⟨e, he, hid⟩ => h2 e he hid,
      fun hc => h3 id hc rfl⟩
  · rintro ⟨h1, h2, h3⟩
    exact ⟨⟨fun j hj hjid => h1 ⟨j, hj, hjid⟩, fun e he hid => h2 ⟨e, he, hid⟩⟩,
      fun c hc hcid => h3 (hcid ▸ hc)⟩

end QuickStickers

namespace QuickStickers

theorem jobStatus_state (s : ServerState) (j : Option String) : (jobStatus s j).2 = s := by
  cases j with
  | none => rfl
  | some id =>
    by_cases hid : id = ""
    · simp [jobStatus, hid]
    · simp only [jobStatus, if_neg hid]
      cases hl : lookupCompleted s id with
      | some imgs => simp [hl]
      | none =>
        simp only [hl]
        by_cases h1 : s.jobQueue.any (fun j => j.jobId == id)
        · simp [h1]
        · by_cases h2 : s.cancelledJobs.any (fun c => c == id)
          · simp [h1, h2]
          · simp [h1, h2]

theorem timerFinish_some (s : ServerState) (id : String) (b : Batch) :
    timerFinish s id (some b) =
      match s.jobQueue.findIdx? (fun j => j.jobId == id) with
      | some i =>
        { s with
          inflight := s.inflight.erase id,
          jobQueue := s.jobQueue.eraseIdx i,
          completedJobs := (id, [b.1, b.2.1, b.2.2.1, b.2.2.2]) :: s.completedJobs,
          credits := s.credits - 1 }
      | none => { s with inflight := s.inflight.erase id } := rfl

theorem timerFinish_found (s : ServerState) (id : String) (b : Batch) (i : Nat)
    (hF : s.jobQueue.findIdx? (fun j => j.jobId == id) = some i) :
    timerFinish s id (some b) =
      { s with
        inflight := s.inflight.erase id,
        jobQueue := s.jobQueue.eraseIdx i,
        completedJobs := (id, [b.1, b.2.1, b.2.2.1, b.2.2.2]) :: s.completedJobs,
        credits := s.credits - 1 } := by
  rw [timerFinish_some, hF]

theorem timerFinish_notfound (s : ServerState) (id : String) (b : Batch)
    (hF : s.jobQueue.findIdx? (fun j => j.jobId == id) = none) :
    timerFinish s id (some b) = { s with inflight := s.inflight.erase id } := by
  rw [timerFinish_some, hF]

theorem inv_initial : Inv initialState := by
  refine ⟨List.nodup_nil, fun id => ?_, by norm_num [initialState]⟩
  simp [memPending, memCompleted, memCancelled, pendingIds, lookupCompleted, initialState]

theorem inv_applyEvent {s s' : ServerState} {e : Event} (hInv : Inv s)
    (h : applyEvent s e = some s') : Inv s' := by
  obtain ⟨hn, hex, hfl⟩ := hInv
  cases e with
  | purchase =>
    simp only [applyEvent, purchaseCredits, Option.some_inj] at h
    subst h
    refine ⟨hn, hex, ?_⟩
    simp only [CREDITS_IN_BUNDLE]
    omega
  | credits =>
    simp only [applyEvent, getCredits, Option.some_inj] at h
    subst h
    exact ⟨hn, hex, hfl⟩
  | status j =>
    simp only [applyEvent, Option.some_inj] at h
    rw [jobStatus_state] at h
    subst h
    exact ⟨hn, hex, hfl⟩
  | start id =>
    simp only [applyEvent] at h
    split at h
    · rw [Option.some_inj] at h
      subst h
      exact ⟨hn, hex, hfl⟩
    · exact absurd h (by simp)
  | queue p id =>
    simp only [applyEvent] at h
    split at h
    case isFalse => exact absurd h (by simp)
    case isTrue hfresh =>
      rw [Option.some_inj] at h
      subst h
      obtain ⟨hfp, hfc, hfx⟩ := (freshId_iff s id).mp hfresh
      by_cases hc : s.credits ≤ 0
      · simp only [queueImageGeneration, if_pos hc]
        exact ⟨hn, hex, hfl⟩
      · cases p with
        | none => simp only [queueImageGeneration, if_neg hc]; exact ⟨hn, hex, hfl⟩
        | some p' =>
          by_cases hp : p' = ""
          · simp only [queueImageGeneration, if_neg hc, if_pos hp]
            exact ⟨hn, hex, hfl⟩
          · simp only [queueImageGeneration, if_neg hc, if_neg hp]
            refine ⟨?_, ?_, hfl⟩
            · show ((s.jobQueue ++ [PendingJob.mk id p']).map (fun j => j.jobId)).Nodup
              rw [List.map_append, List.nodup_append]
              refine ⟨hn, by simp, ?_⟩
              intro a ha hb
              simp only [List.map_cons, List.map_nil, List.mem_singleton] at hb
              subst hb
              exact hfp ha
            · intro x
              by_cases hx : x = id
              · subst hx
                exact ⟨fun hc' => hfc hc'.2, fun hc' => hfx hc'.2, fun hc' => hfc hc'.1⟩
              · have hpx : memPending
                    { s with jobQueue := s.jobQueue ++ [PendingJob.mk id p'], armed := id :: s.armed } x ↔
                    memPending s x := by
                  simp [memPending, pendingIds, hx]
                obtain ⟨e1, e2, e3⟩ := hex x
                exact ⟨fun ⟨hp', hc'⟩ => e1 ⟨hpx.mp hp', hc'⟩,
                  fun ⟨hp', hc'⟩ => e2 ⟨hpx.mp hp', hc'⟩, e3⟩
  | cancel j =>
    simp only [applyEvent, Option.some_inj] at h
    subst h
    cases j with
    | none => exact ⟨hn, hex, hfl⟩
    | some id =>
      by_cases hid : id = ""
      · simp only [cancelJob, if_pos hid]
        exact ⟨hn, hex, hfl⟩
      · cases hF : s.jobQueue.findIdx? (fun j => j.jobId == id) with
        | none => simp only [cancelJob, if_neg hid, hF]; exact ⟨hn, hex, hfl⟩
        | some i =>
          simp only [cancelJob, if_neg hid, hF]
          have hEr : s.jobQueue.eraseIdx i = s.jobQueue.eraseP (fun j => j.jobId == id) :=
            eraseIdx_of_findIdx? _ _ _ hF
          have hmem : ∃ j ∈ s.jobQueue, j.jobId = id := by
            obtain ⟨a, ha, hpa⟩ := exists_of_findIdx?_eq_some hF
            exact ⟨a, ha, by simpa using hpa⟩
          rw [hEr]
          obtain ⟨hN, hNot, hSub⟩ := pending_eraseP_spec s.jobQueue id hn hmem
          refine ⟨hN, ?_, hfl⟩
          intro x
          have hCx : memCancelled
              { s with
                cancelledJobs := s.cancelledJobs ++ [id],
                jobQueue := s.jobQueue.eraseP (fun j => j.jobId == id),
                armed := s.armed.erase id } x ↔ memCancelled s x ∨ x = id := by
            simp [memCancelled]
          by_cases hx : x = id
          · subst hx
            exact ⟨fun hc' => hNot hc'.1, fun hc' => hNot hc'.1,
              fun hc' => (hex x).1 ⟨(memPending_iff s x).mpr hmem, hc'.1⟩⟩
          · obtain ⟨e1, e2, e3⟩ := hex x
            refine ⟨fun ⟨hp', hc'⟩ => e1 ⟨hSub x hp', hc'⟩, fun ⟨hp', hca'⟩ => ?_,
              fun ⟨hc', hca'⟩ => ?_⟩
            · rcases hCx.mp hca' with hca | hxeq
              · exact e2 ⟨hSub x hp', hca⟩
              · exact hx hxeq
            · rcases hCx.mp hca' with hca | hxeq
              · exact e3 ⟨hc', hca⟩
              · exact hx hxeq
  | finish id oc =>
    simp only [applyEvent] at h
    split at h
    case isFalse => exact absurd h (by simp)
    case isTrue hin =>
      rw [Option.some_inj] at h
      subst h
      cases oc with
      | none => exact ⟨hn, hex, hfl⟩
      | some b =>
        cases hF : s.jobQueue.findIdx? (fun j => j.jobId == id) with
        | none =>
          rw [timerFinish_notfound s id b hF]
          exact ⟨hn, hex, hfl⟩
        | some i =>
          rw [timerFinish_found s id b i hF]
          have hEr : s.jobQueue.eraseIdx i = s.jobQueue.eraseP (fun j => j.jobId == id) :=
            eraseIdx_of_findIdx? _ _ _ hF
          have hmem : ∃ j ∈ s.jobQueue, j.jobId = id := by
            obtain ⟨a, ha, hpa⟩ := exists_of_findIdx?_eq_some hF
            exact ⟨a, ha, by simpa using hpa⟩
          rw [hEr]
          obtain ⟨hN, hNot, hSub⟩ := pending_eraseP_spec s.jobQueue id hn hmem
          refine ⟨hN, ?_, ?_⟩
          · intro x
            by_cases hx : x = id
            · subst hx
              refine ⟨fun hc' => hNot hc'.1, fun hc' => hNot hc'.1, fun hc' => ?_⟩
              exact (hex x).2.1 ⟨(memPending_iff s x).mpr hmem, hc'.2⟩
            · have hCpx : memCompleted
                  { s with
                    inflight := s.inflight.erase id,
                    jobQueue := s.jobQueue.eraseP (fun j => j.jobId == id),
                    completedJobs := (id, [b.1, b.2.1, b.2.2.1, b.2.2.2]) :: s.completedJobs,
                    credits := s.credits - 1 } x ↔ memCompleted s x := by
                rw [memCompleted_find?_iff, memCompleted_find?_iff]
                constructor
                · rintro ⟨e, he, he1⟩
                  rcases List.mem_cons.mp he with rfl | hmem'
                  · exact absurd he1.symm hx
                  · exact ⟨e, hmem', he1⟩
                · rintro ⟨e, he, he1⟩
                  exact ⟨e, List.mem_cons_of_mem _ he, he1⟩
              obtain ⟨e1, e2, e3⟩ := hex x
              exact ⟨fun ⟨hp', hc'⟩ => e1 ⟨hSub x hp', hCpx.mp hc'⟩,
                fun ⟨hp', hca'⟩ => e2 ⟨hSub x hp', hca'⟩,
                fun ⟨hc', hca'⟩ => e3 ⟨hCpx.mp hc', hca'⟩⟩
          · show (10 : Int) ≤ s.credits - 1 + ((s.completedJobs.length + 1 : Nat) : Int)
            push_cast
            omega

theorem inv_runEvents :
    ∀ (es : List Event) (s s' : ServerState), Inv s → runEvents s es = some s' → Inv s' := by
  intro es
  induction es with
  | nil =>
    intro s s' hI h
    simp only [runEvents, Option.some_inj] at h
    subst h
    exact hI
  | cons e es ih =>
    intro s s' hI h
    simp only [runEvents] at h
    cases he : applyEvent s e with
    | none => rw [he] at h; exact absurd h (by simp)
    | some s₁ => rw [he] at h; exact ih s₁ s' (inv_applyEvent hI he) h

theorem inv_reachable {s : ServerState} (h : Reachable s) : Inv s := by
  obtain ⟨es, hrun⟩ := h
  exact inv_runEvents es initialState s inv_initial hrun

end QuickStickers

namespace QuickStickers

theorem negState_run : runEvents initialState negTrace = some negState := by rfl

theorem negState_reachable : Reachable negState := ⟨negTrace, negState_run⟩

/-- Claim C10: the job-status operation is read-only: whatever the `jobId`
argument and whichever response branch is taken, the returned state is the
input state, so the credit balance and all three collections are unchanged. -/
theorem job_status_readonly (s : ServerState) (jobId : Option String) :
    (jobStatus s jobId).2 = s :=
  jobStatus_state s jobId

/-- Claim C3: a queue-image-generation request made while `credits ≤ 0`
returns the 403 resource-exhaustion result (so no job id is issued) and
leaves the state unchanged (no job is added to the pending collection). -/
theorem queue_rejects_when_no_credits (s : ServerState) (prompt : Option String)
    (newId : String) (h : s.credits ≤ 0) :
    (queueImageGeneration s prompt newId).1 = QueueResult.noCredits ∧
      (queueImageGeneration s prompt newId).2 = s := by
  simp [queueImageGeneration, if_pos h]

theorem queue_rejects_when_no_credits_witness :
    (ServerState.mk [] [] [] 0 [] []).credits ≤ 0 ∧
      ((queueImageGeneration (ServerState.mk [] [] [] 0 [] []) (some "cat") "z").1 =
          QueueResult.noCredits ∧
        (queueImageGeneration (ServerState.mk [] [] [] 0 [] []) (some "cat") "z").2 =
          ServerState.mk [] [] [] 0 [] []) :=
  ⟨by decide, queue_rejects_when_no_credits (ServerState.mk [] [] [] 0 [] []) (some "cat") "z"
    (by decide)⟩

/-- Claim C2: in every reachable state, a job id belongs to at most one of
the pending, completed and cancelled collections. -/
theorem job_id_in_at_most_one_collection (s : ServerState) (hs : Reachable s) (id : String) :
    ¬ (memPending s id ∧ memCompleted s id) ∧
      ¬ (memPending s id ∧ memCancelled s id) ∧
        ¬ (memCompleted s id ∧ memCancelled s id) :=
  (inv_reachable hs).2.1 id

theorem job_id_in_at_most_one_collection_witness :
    Reachable initialState ∧
      (¬ (memPending initialState "a" ∧ memCompleted initialState "a") ∧
        ¬ (memPending initialState "a" ∧ memCancelled initialState "a") ∧
          ¬ (memCompleted initialState "a" ∧ memCancelled initialState "a")) :=
  ⟨⟨[], rfl⟩, job_id_in_at_most_one_collection initialState ⟨[], rfl⟩ "a"⟩

/-- Claim C7 counterexample: a reachable state with a negative credit
balance: queue eleven jobs at balance 10 (queuing spends nothing) and let
all eleven fire successfully; the balance ends at -1. -/
theorem credits_nonnegative_counterexample :
    Reachable negState ∧ negState.credits < 0 :=
  ⟨negState_reachable, by decide⟩

/-- Claim C7 (amended): the balance can go negative; what every reachable
state satisfies is the floor `credits + (number of completed jobs) ≥ 10`:
the balance is bounded below by 10 minus the completed-job count, and the
`credits ≤ 0` pre-check is the only guard. -/
theorem credits_floor_amended (s : ServerState) (hs : Reachable s) :
    10 ≤ s.credits + (s.completedJobs.length : Int) :=
  (inv_reachable hs).2.2

theorem credits_floor_amended_witness :
    Reachable initialState ∧
      10 ≤ initialState.credits + (initialState.completedJobs.length : Int) :=
  ⟨⟨[], rfl⟩, credits_floor_amended initialState ⟨[], rfl⟩⟩

/-- Claim C4 counterexample: the credit check runs before the prompt check,
so a missing-prompt request made in a reachable state with `credits ≤ 0`
returns the 403 resource-exhaustion result, not the 400 validation result
the claim demands for every balance. -/
theorem queue_missing_prompt_counterexample :
    Reachable negState ∧ negState.credits ≤ 0 ∧
      (queueImageGeneration negState none "z").1 ≠ QueueResult.missingPrompt ∧
      (queueImageGeneration negState none "z").1 = QueueResult.noCredits :=
  ⟨negState_reachable, by decide, by decide, by decide⟩

/-- Claim C4 (amended): a queue request with a missing or empty prompt never
creates a job: when the balance is positive it returns the 400 validation
result, and when the balance is `≤ 0` the credit check takes precedence and
it returns the 403 result; in both cases the state is unchanged. -/
theorem queue_missing_prompt_amended (s : ServerState) (prompt : Option String)
    (newId : String) (hp : prompt = none ∨ prompt = some "") :
    (0 < s.credits →
      (queueImageGeneration s prompt newId).1 = QueueResult.missingPrompt ∧
        (queueImageGeneration s prompt newId).2 = s) ∧
    (s.credits ≤ 0 →
      (queueImageGeneration s prompt newId).1 = QueueResult.noCredits ∧
        (queueImageGeneration s prompt newId).2 = s) := by
  constructor
  · intro hc
    have hc' : ¬ s.credits ≤ 0 := by omega
    rcases hp with rfl | rfl
    · simp [queueImageGeneration, hc']
    · simp [queueImageGeneration, hc']
  · intro hc
    simp [queueImageGeneration, if_pos hc]

theorem queue_missing_prompt_amended_witness :
    ((none : Option String) = none ∨ (none : Option String) = some "") ∧
      ((0 < initialState.credits →
        (queueImageGeneration initialState none "z").1 = QueueResult.missingPrompt ∧
          (queueImageGeneration initialState none "z").2 = initialState) ∧
      (initialState.credits ≤ 0 →
        (queueImageGeneration initialState none "z").1 = QueueResult.noCredits ∧
          (queueImageGeneration initialState none "z").2 = initialState)) :=
  ⟨Or.inl rfl, queue_missing_prompt_amended initialState none "z" (Or.inl rfl)⟩

end QuickStickers

namespace QuickStickers

/-- Claim C1: when a job's delayed action fires with all four generation
calls succeeded (`outcome = some b`) and the job still pending, the job is
removed from the pending collection, the four-element result array is stored
under its id in the completed collection, the balance drops by exactly 1 and
the cancelled collection is untouched; if the job is no longer pending the
results are discarded and collections and balance are unchanged; if any
generation call threw (`outcome = none`) the pending collection, the
completed collection, the cancelled collection and the balance are all
unchanged (the job stays pending). -/
theorem delayed_action_fire_spec (s : ServerState) (hs : Reachable s) (id : String)
    (oc : Option Batch) :
    (∀ b, oc = some b → memPending s id →
      (timerFinish s id oc).jobQueue = s.jobQueue.eraseP (fun j => j.jobId == id) ∧
        ¬ memPending (timerFinish s id oc) id ∧
        lookupCompleted (timerFinish s id oc) id = some [b.1, b.2.1, b.2.2.1, b.2.2.2] ∧
        (timerFinish s id oc).credits = s.credits - 1 ∧
        (timerFinish s id oc).cancelledJobs = s.cancelledJobs) ∧
    (∀ b, oc = some b → ¬ memPending s id →
      (timerFinish s id oc).jobQueue = s.jobQueue ∧
        (timerFinish s id oc).completedJobs = s.completedJobs ∧
        (timerFinish s id oc).cancelledJobs = s.cancelledJobs ∧
        (timerFinish s id oc).credits = s.credits) ∧
    (oc = none →
      (timerFinish s id oc).jobQueue = s.jobQueue ∧
        (timerFinish s id oc).completedJobs = s.completedJobs ∧
        (timerFinish s id oc).cancelledJobs = s.cancelledJobs ∧
        (timerFinish s id oc).credits = s.credits) := by
  refine ⟨?_, ?_, ?_⟩
  · rintro b rfl hp
    obtain ⟨i, hF⟩ : ∃ i, s.jobQueue.findIdx? (fun j => j.jobId == id) = some i := by
      cases hF : s.jobQueue.findIdx? (fun j => j.jobId == id) with
      | some i => exact ⟨i, rfl⟩
      | none =>
        rw [List.findIdx?_eq_none_iff] at hF
        obtain ⟨j, hj, hjid⟩ := (memPending_iff s id).mp hp
        exact absurd (hF j hj) (by simp [hjid])
    rw [timerFinish_found s id b i hF]
    have hEr := eraseIdx_of_findIdx? _ _ _ hF
    obtain ⟨hN, hNot, hSub⟩ :=
      pending_eraseP_spec s.jobQueue id (inv_reachable hs).1 ((memPending_iff s id).mp hp)
    rw [hEr]
    refine ⟨rfl, hNot, ?_, rfl, rfl⟩
    simp [lookupCompleted, List.find?_cons]
  · rintro b rfl hp
    have hF : s.jobQueue.findIdx? (fun j => j.jobId == id) = none := by
      rw [List.findIdx?_eq_none_iff]
      intro j hj
      by_contra hc
      simp only [Bool.not_eq_false, beq_iff_eq] at hc
      exact hp ((memPending_iff s id).mpr ⟨j, hj, hc⟩)
    rw [timerFinish_notfound s id b hF]
    exact ⟨rfl, rfl, rfl, rfl⟩
  · rintro rfl
    exact ⟨rfl, rfl, rfl, rfl⟩

theorem delayed_action_fire_spec_witness :
    Reachable initialState ∧
      ((∀ b, (none : Option Batch) = some b → memPending initialState "a" →
        (timerFinish initialState "a" none).jobQueue =
            initialState.jobQueue.eraseP (fun j => j.jobId == "a") ∧
          ¬ memPending (timerFinish initialState "a" none) "a" ∧
          lookupCompleted (timerFinish initialState "a" none) "a" =
            some [b.1, b.2.1, b.2.2.1, b.2.2.2] ∧
          (timerFinish initialState "a" none).credits = initialState.credits - 1 ∧
          (timerFinish initialState "a" none).cancelledJobs = initialState.cancelledJobs) ∧
      (∀ b, (none : Option Batch) = some b → ¬ memPending initialState "a" →
        (timerFinish initialState "a" none).jobQueue = initialState.jobQueue ∧
          (timerFinish initialState "a" none).completedJobs = initialState.completedJobs ∧
          (timerFinish initialState "a" none).cancelledJobs = initialState.cancelledJobs ∧
          (timerFinish initialState "a" none).credits = initialState.credits) ∧
      ((none : Option Batch) = none →
        (timerFinish initialState "a" none).jobQueue = initialState.jobQueue ∧
          (timerFinish initialState "a" none).completedJobs = initialState.completedJobs ∧
          (timerFinish initialState "a" none).cancelledJobs = initialState.cancelledJobs ∧
          (timerFinish initialState "a" none).credits = initialState.credits)) :=
  ⟨⟨[], rfl⟩, delayed_action_fire_spec initialState ⟨[], rfl⟩ "a" none⟩

end QuickStickers

namespace QuickStickers

/-- Claim C5: for a non-empty job id in a reachable state, the job-status
response is determined by collection membership: `completed` with the stored
images and the current balance when the id is in the completed collection,
`processing` when pending, `cancelled` when cancelled, and the 404 not-found
result when in none of the three (in particular for never-issued ids). -/
theorem job_status_by_membership (s : ServerState) (hs : Reachable s) (id : String)
    (hid : id ≠ "") :
    (∀ imgs, lookupCompleted s id = some imgs →
      (jobStatus s (some id)).1 = StatusResult.completed imgs s.credits) ∧
    (memPending s id → (jobStatus s (some id)).1 = StatusResult.processing) ∧
    (memCancelled s id → (jobStatus s (some id)).1 = StatusResult.cancelled) ∧
    (¬ memCompleted s id → ¬ memPending s id → ¬ memCancelled s id →
      (jobStatus s (some id)).1 = StatusResult.notFound) := by
  obtain ⟨hn, hex, hfl⟩ := inv_reachable hs
  refine ⟨?_, ?_, ?_, ?_⟩
  · intro imgs hl
    simp [jobStatus, hid, hl]
  · intro hp
    have hcomp : lookupCompleted s id = none := by
      cases hl : lookupCompleted s id with
      | none => rfl
      | some imgs => exact absurd ⟨hp, by simp [memCompleted, hl]⟩ (hex id).1
    have hany : s.jobQueue.any (fun j => j.jobId == id) = true := by
      obtain ⟨j, hj, hjid⟩ := (memPending_iff s id).mp hp
      exact List.any_eq_true.mpr ⟨j, hj, by simp [hjid]⟩
    simp [jobStatus, hid, hcomp, hany]
  · intro hca
    have hcomp : lookupCompleted s id = none := by
      cases hl : lookupCompleted s id with
      | none => rfl
      | some imgs => exact absurd ⟨by simp [memCompleted, hl], hca⟩ (hex id).2.2
    have hpend : s.jobQueue.any (fun j => j.jobId == id) = false := by
      rw [List.any_eq_false]
      intro j hj hc
      exact (hex id).2.1 ⟨(memPending_iff s id).mpr ⟨j, hj, by simpa using hc⟩, hca⟩
    have hcan : s.cancelledJobs.any (fun c => c == id) = true :=
      List.any_eq_true.mpr ⟨id, hca, by simp⟩
    simp [jobStatus, hid, hcomp, hpend, hcan]
  · intro h1 h2 h3
    have hcomp : lookupCompleted s id = none := by
      cases hl : lookupCompleted s id with
      | none => rfl
      | some imgs => exact absurd (by simp [memCompleted, hl]) h1
    have hpend : s.jobQueue.any (fun j => j.jobId == id) = false := by
      rw [List.any_eq_false]
      intro j hj hc
      exact h2 ((memPending_iff s id).mpr ⟨j, hj, by simpa using hc⟩)
    have hcan : s.cancelledJobs.any (fun c => c == id) = false := by
      rw [List.any_eq_false]
      intro c hc hcc
      have hcc' : c = id := by simpa using hcc
      subst hcc'
      exact h3 hc
    simp [jobStatus, hid, hcomp, hpend, hcan]

theorem job_status_by_membership_witness :
    Reachable initialState ∧ "a" ≠ "" ∧
      ((∀ imgs, lookupCompleted initialState "a" = some imgs →
        (jobStatus initialState (some "a")).1 = StatusResult.completed imgs initialState.credits) ∧
      (memPending initialState "a" → (jobStatus initialState (some "a")).1 = StatusResult.processing) ∧
      (memCancelled initialState "a" → (jobStatus initialState (some "a")).1 = StatusResult.cancelled) ∧
      (¬ memCompleted initialState "a" → ¬ memPending initialState "a" →
        ¬ memCancelled initialState "a" →
        (jobStatus initialState (some "a")).1 = StatusResult.notFound)) :=
  ⟨⟨[], rfl⟩, by decide, job_status_by_membership initialState ⟨[], rfl⟩ "a" (by decide)⟩

/-- Claim C6: cancelling a pending job clears its armed timer, splices it out
of the pending collection, appends it to the cancelled collection, returns
success and leaves the balance (and the completed collection) unchanged;
cancelling any id not in the pending collection — including completed or
already-cancelled ids, so a second cancel of the same id — returns the 404
not-found result and changes nothing. -/
theorem cancel_job_spec (s : ServerState) (hs : Reachable s) (id : String) (hid : id ≠ "") :
    (memPending s id →
      (cancelJob s (some id)).1 = CancelResult.success ∧
        (cancelJob s (some id)).2.jobQueue = s.jobQueue.eraseP (fun j => j.jobId == id) ∧
        ¬ memPending (cancelJob s (some id)).2 id ∧
        memCancelled (cancelJob s (some id)).2 id ∧
        (cancelJob s (some id)).2.armed = s.armed.erase id ∧
        (cancelJob s (some id)).2.completedJobs = s.completedJobs ∧
        (cancelJob s (some id)).2.credits = s.credits) ∧
    (¬ memPending s id →
      (cancelJob s (some id)).1 = CancelResult.notFound ∧ (cancelJob s (some id)).2 = s) := by
  constructor
  · intro hp
    obtain ⟨i, hF⟩ : ∃ i, s.jobQueue.findIdx? (fun j => j.jobId == id) = some i := by
      cases hF : s.jobQueue.findIdx? (fun j => j.jobId == id) with
      | some i => exact ⟨i, rfl⟩
      | none =>
        rw [List.findIdx?_eq_none_iff] at hF
        obtain ⟨j, hj, hjid⟩ := (memPending_iff s id).mp hp
        exact absurd (hF j hj) (by simp [hjid])
    have hEr := eraseIdx_of_findIdx? _ _ _ hF
    obtain ⟨hN, hNot, hSub⟩ :=
      pending_eraseP_spec s.jobQueue id (inv_reachable hs).1 ((memPending_iff s id).mp hp)
    refine ⟨by simp [cancelJob, hid, hF], by simp [cancelJob, hid, hF, hEr], ?_, ?_,
      by simp [cancelJob, hid, hF], by simp [cancelJob, hid, hF], by simp [cancelJob, hid, hF]⟩
    · simp only [cancelJob, if_neg hid, hF]
      rw [hEr]
      exact hNot
    · simp only [cancelJob, if_neg hid, hF]
      simp [memCancelled]
  · intro hp
    have hF : s.jobQueue.findIdx? (fun j => j.jobId == id) = none := by
      rw [List.findIdx?_eq_none_iff]
      intro j hj
      simp only [beq_eq_false_iff_ne, ne_eq]
      intro hc
      exact hp ((memPending_iff s id).mpr ⟨j, hj, hc⟩)
    simp [cancelJob, hid, hF]

theorem cancel_job_spec_witness :
    Reachable initialState ∧ "a" ≠ "" ∧
      ((memPending initialState "a" →
        (cancelJob initialState (some "a")).1 = CancelResult.success ∧
          (cancelJob initialState (some "a")).2.jobQueue =
            initialState.jobQueue.eraseP (fun j => j.jobId == "a") ∧
          ¬ memPending (cancelJob initialState (some "a")).2 "a" ∧
          memCancelled (cancelJob initialState (some "a")).2 "a" ∧
          (cancelJob initialState (some "a")).2.armed = initialState.armed.erase "a" ∧
          (cancelJob initialState (some "a")).2.completedJobs = initialState.completedJobs ∧
          (cancelJob initialState (some "a")).2.credits = initialState.credits) ∧
      (¬ memPending initialState "a" →
        (cancelJob initialState (some "a")).1 = CancelResult.notFound ∧
          (cancelJob initialState (some "a")).2 = initialState)) :=
  ⟨⟨[], rfl⟩, by decide, cancel_job_spec initialState ⟨[], rfl⟩ "a" (by decide)⟩

end QuickStickers

namespace QuickStickers

theorem runEvents_replicate_purchase :
    ∀ (n : Nat) (s s' : ServerState),
      runEvents s (List.replicate n Event.purchase) = some s' →
      s'.credits = s.credits + 10 * (n : Int) := by
  intro n
  induction n with
  | zero =>
    intro s s' h
    simp only [List.replicate, runEvents, Option.some_inj] at h
    subst h
    simp
  | succ k ih =>
    intro s s' h
    simp only [List.replicate_succ, runEvents, applyEvent] at h
    have := ih _ _ h
    rw [this]
    simp only [purchaseCredits, CREDITS_IN_BUNDLE]
    push_cast
    ring

/-- Claim C8: each purchase call adds exactly `CREDITS_IN_BUNDLE = 10` to the
balance, returns the new balance and touches nothing else; consequently a
trace of `n` purchase calls from the initial state (balance 10) ends with
balance `10 + 10·n`. -/
theorem purchase_credits_spec :
    (∀ s : ServerState,
      (purchaseCredits s).1 = s.credits + CREDITS_IN_BUNDLE ∧
        CREDITS_IN_BUNDLE = 10 ∧
        (purchaseCredits s).2.credits = s.credits + CREDITS_IN_BUNDLE ∧
        (purchaseCredits s).2.jobQueue = s.jobQueue ∧
        (purchaseCredits s).2.completedJobs = s.completedJobs ∧
        (purchaseCredits s).2.cancelledJobs = s.cancelledJobs) ∧
    (∀ (n : Nat) (s : ServerState),
      runEvents initialState (List.replicate n Event.purchase) = some s →
      s.credits = 10 + 10 * (n : Int)) := by
  constructor
  · intro s
    exact ⟨rfl, rfl, rfl, rfl, rfl, rfl⟩
  · intro n s h
    have := runEvents_replicate_purchase n initialState s h
    rw [this]
    simp [initialState]

theorem purchase_credits_spec_witness :
    runEvents initialState (List.replicate 2 Event.purchase) = some twoPurchases ∧
      ((purchaseCredits initialState).1 = initialState.credits + CREDITS_IN_BUNDLE ∧
        CREDITS_IN_BUNDLE = 10 ∧
        (purchaseCredits initialState).2.credits = initialState.credits + CREDITS_IN_BUNDLE ∧
        (purchaseCredits initialState).2.jobQueue = initialState.jobQueue ∧
        (purchaseCredits initialState).2.completedJobs = initialState.completedJobs ∧
        (purchaseCredits initialState).2.cancelledJobs = initialState.cancelledJobs) ∧
      twoPurchases.credits = 10 + 10 * ((2 : Nat) : Int) :=
  ⟨rfl, purchase_credits_spec.1 initialState, purchase_credits_spec.2 2 twoPurchases rfl⟩

theorem generateLoop_ok (prompt : String) (bg : Option String) :
    ∀ (parts : List GeminiPart) (r : ImageResponse),
      generateLoop prompt bg parts = .ok r →
      ∃ d, firstInlineData parts = some d ∧ d ≠ "" ∧ r = generatePart prompt bg d := by
  intro parts
  induction parts with
  | nil => intro r h; simp [generateLoop] at h
  | cons part rest ih =>
    intro r h
    cases hpd : part.inlineData with
    | none =>
      simp only [generateLoop, hpd] at h
      obtain ⟨d, h1, h2, h3⟩ := ih r h
      exact ⟨d, by simp [firstInlineData, hpd, h1], h2, h3⟩
    | some d =>
      simp only [generateLoop, hpd] at h
      by_cases hd : d.data = ""
      · rw [if_pos hd] at h
        obtain ⟨d', h1, h2, h3⟩ := ih r h
        exact ⟨d', by simp [firstInlineData, hpd, hd, h1], h2, h3⟩
      · rw [if_neg hd] at h
        cases h
        exact ⟨d.data, by simp [firstInlineData, hpd, hd], hd, rfl⟩

/-- Claim C9: any image result the generation adapter returns has a 1024x1024
fullsize representation, a 512x512 thumbnail, a label equal to the prompt,
and equal fullsize and thumbnail URLs — the background-removed data URL when
removal succeeds, the unprocessed payload's data URL when it fails. -/
theorem generate_gemini_image_spec (prompt : String) (response : GeminiResponse)
    (bg : Option String) (r : ImageResponse)
    (h : generateGeminiImage prompt response bg = .ok r) :
    r.fullsize.width = 1024 ∧ r.fullsize.height = 1024 ∧
      r.thumbnail.width = 512 ∧ r.thumbnail.height = 512 ∧
      r.label = prompt ∧ r.fullsize.url = r.thumbnail.url ∧
      (∀ b64, bg = some b64 → r.fullsize.url = dataUrl b64) ∧
      (bg = none → ∃ d, responseFirstData response = some d ∧ r.fullsize.url = dataUrl d) := by
  cases hc : response.candidates with
  | none => simp [generateGeminiImage, hc] at h
  | some cands =>
    cases cands with
    | nil => simp [generateGeminiImage, hc] at h
    | cons cand rest =>
      cases hct : cand.content with
      | none => simp [generateGeminiImage, hc, hct] at h
      | some content =>
        cases hps : content.parts with
        | none => simp [generateGeminiImage, hc, hct, hps] at h
        | some parts =>
          have hred : generateGeminiImage prompt response bg = generateLoop prompt bg parts := by
            simp [generateGeminiImage, hc, hct, hps]
          rw [hred] at h
          obtain ⟨d, h1, h2, h3⟩ := generateLoop_ok prompt bg parts r h
          subst h3
          have hr : responseFirstData response = firstInlineData parts := by
            simp [responseFirstData, hc, hct, hps]
          cases bg with
          | some b64 =>
            exact ⟨rfl, rfl, rfl, rfl, rfl, rfl, fun x hx => by cases hx; rfl, by simp⟩
          | none =>
            exact ⟨rfl, rfl, rfl, rfl, rfl, rfl, by simp,
              fun _ => ⟨d, by rw [hr]; exact h1, rfl⟩⟩

theorem generate_gemini_image_spec_witness :
    generateGeminiImage "cat" witnessResponse (some "WFla") = Except.ok witnessImage ∧
      (witnessImage.fullsize.width = 1024 ∧ witnessImage.fullsize.height = 1024 ∧
        witnessImage.thumbnail.width = 512 ∧ witnessImage.thumbnail.height = 512 ∧
        witnessImage.label = "cat" ∧ witnessImage.fullsize.url = witnessImage.thumbnail.url ∧
        (∀ b64, (some "WFla" : Option String) = some b64 →
          witnessImage.fullsize.url = dataUrl b64) ∧
        ((some "WFla" : Option String) = none →
          ∃ d, responseFirstData witnessResponse = some d ∧
            witnessImage.fullsize.url = dataUrl d)) :=
  ⟨rfl, generate_gemini_image_spec "cat" witnessResponse (some "WFla") witnessImage rfl⟩

end QuickStickers
